import Mathlib

/-!
Verification of the LectureGenie orchestration logic (`src/app.py`).

The program is a thin orchestration layer: transcribe an audio file,
slice the transcript into fixed-size 1024-character chunks, summarize
each chunk, generate questions per chunk, join both results, write a
three-section report to the fixed path `lecture_summary.txt`, and
return the 4-tuple of artifacts.

Embedding conventions:
* Text is `List Char` (Python strings are sequences of code points, so
  Python slicing `s[i:i+k]` is `(s.drop i).take k`).
* The three pretrained models are parameters of the embedded functions,
  returning `Except E _` so that a stub can raise; a `pipeline` batch
  call maps the model over the chunk list elementwise, and a raised
  exception in any element propagates (`mapExcept`).
* The thread pools: in `generate_questions` the futures are awaited by
  iterating the submitted list in submission order (`for future in
  future_questions: future.result()`), which is exactly a left-to-right
  map over the chunks; in `process_audio` the transcription future is
  awaited immediately (a synchronous call), and the summary future is
  awaited before the questions future.
* The filesystem is the content of the single path ever written,
  `lecture_summary.txt`, as `Option (List Char)` (`none` = absent).
  The write `open(path, "w").write(text)` is a parameter
  `write : FS → List Char → Except E Unit × FS`; `write_overwrite`
  models the real overwriting write, and an erroring `write` models a
  raising one.
* `process_audio_ev` additionally records an event trace marking the
  sequencing points of the orchestrator (transcription finished, the
  two tasks submitted, the two results awaited, the file written, the
  tuple returned); `process_audio` is its trace-erased version.
-/

/-- Result dictionary of `whisper_model.transcribe`; the code reads `result["text"]`. -/
structure WhisperResult where
  text : List Char
deriving DecidableEq, Repr

/-- One element of the summarization pipeline's batch output; the code reads `s["summary_text"]`. -/
structure SummaryOutput where
  summary_text : List Char
deriving DecidableEq, Repr

/-- One candidate of the question-generation pipeline's output; the code reads `q["generated_text"]`. -/
structure GenOutput where
  generated_text : List Char
deriving DecidableEq, Repr

/-- Content of the one file the program writes (`lecture_summary.txt`); `none` = file absent. -/
abbrev FS := Option (List Char)

/-- Iteration core of Python `range`; any fuel at least `stop - start` yields
the same list (`pyRangeAux_fuel`). -/
def pyRangeAux (step : Nat) : Nat → Nat → Nat → List Nat
  | 0, _, _ => []
  | fuel + 1, start, stop =>
    if stop ≤ start then [] else start :: pyRangeAux step fuel (start + step) stop

/-- Python `range(start, stop, step)`: `start, start+step, …` while below `stop`
(empty when `step = 0`, which Python rejects; the code only uses `step = 1024`).
The fuel `stop - start` always suffices since each iteration advances by `step ≥ 1`;
structural recursion keeps the function kernel-computable. -/
def pyRange (start stop step : Nat) : List Nat :=
  if step = 0 then [] else pyRangeAux step (stop - start) start stop

/-- The chunker `[text[i:i+k] for i in range(0, len(text), k)]` (the code uses `k = 1024`). -/
def text_chunks (text : List Char) (k : Nat) : List (List Char) :=
  (pyRange 0 text.length k).map (fun i => (text.drop i).take k)

/-- Recursive characterization of the chunker, used to prove its properties. -/
def chunksAux (s : List Char) (k : Nat) : List (List Char) :=
  if _h : s = [] ∨ k = 0 then [] else s.take k :: chunksAux (s.drop k) k
termination_by s.length
decreasing_by
  simp only [not_or] at _h
  have h1 : s.length ≠ 0 := fun h0 => _h.1 (List.eq_nil_of_length_eq_zero h0)
  simp only [List.length_drop]
  omega

/-- Map a fallible function over a list, propagating the first error:
the semantics both of a `pipeline` batch call and of awaiting a list of
futures in submission order. -/
def mapExcept {E α β : Type} (f : α → Except E β) : List α → Except E (List β)
  | [] => .ok []
  | a :: l =>
    match f a with
    | .error e => .error e
    | .ok b =>
      match mapExcept f l with
      | .error e => .error e
      | .ok bs => .ok (b :: bs)

instance {E α : Type} [DecidableEq E] [DecidableEq α] : DecidableEq (Except E α) := fun x y =>
  match x, y with
  | .error a, .error b =>
    if h : a = b then .isTrue (by rw [h]) else .isFalse (fun hc => h (Except.error.inj hc))
  | .error _, .ok _ => .isFalse (fun hc => Except.noConfusion hc)
  | .ok _, .error _ => .isFalse (fun hc => Except.noConfusion hc)
  | .ok a, .ok b =>
    if h : a = b then .isTrue (by rw [h]) else .isFalse (fun hc => h (Except.ok.inj hc))

/-- Python `sep.join(parts)`. -/
def join_with (sep : List Char) : List (List Char) → List Char
  | [] => []
  | [x] => x
  | x :: xs => x ++ sep ++ join_with sep xs

/-- `transcribe_audio`: call the model, return `result["text"]`. -/
def transcribe_audio {E : Type} (whisper_model : String → Except E WhisperResult)
    (audio_path : String) : Except E (List Char) :=
  match whisper_model audio_path with
  | .error e => .error e
  | .ok result => .ok result.text

/-- `summarize_text`: chunk the text at 1024 characters, run the summarizer
over the batch, and join the `summary_text` fields with single spaces. -/
def summarize_text {E : Type} (summarizer : List Char → Except E SummaryOutput)
    (text : List Char) : Except E (List Char) :=
  match mapExcept summarizer (text_chunks text 1024) with
  | .error e => .error e
  | .ok summaries => .ok (join_with [' '] (summaries.map (fun s => s.summary_text)))

/-- The fixed instruction prompt of `generate_questions`, embedding the chunk as Passage. -/
def build_prompt (chunk : List Char) : List Char :=
  ("You are an AI tutor. Your task is to generate **insightful, topic-specific** questions based on the following passage. Ensure that the questions are relevant to the **key concepts, definitions, and explanations** present in the text. Avoid generic questions.\n\nPassage:\n").toList ++ chunk

/-- The `questions` list accumulated by `generate_questions`: one future per chunk,
awaited in submission order, each extended by its `generated_text` fields in order. -/
def questions_of {E : Type} (question_generator : List Char → Except E (List GenOutput))
    (text : List Char) : Except E (List (List Char)) :=
  match mapExcept (fun chunk => question_generator (build_prompt chunk)) (text_chunks text 1024) with
  | .error e => .error e
  | .ok results => .ok ((results.map (fun generated => generated.map (fun q => q.generated_text))).flatten)

/-- `generate_questions`: the accumulated questions, newline-joined. -/
def generate_questions {E : Type} (question_generator : List Char → Except E (List GenOutput))
    (text : List Char) : Except E (List Char) :=
  match questions_of question_generator text with
  | .error e => .error e
  | .ok questions => .ok (join_with ['\n'] questions)

/-- The fixed output path. -/
def file_path : String := "lecture_summary.txt"

/-- The report blob `f"📝 Transcription:\n{t}\n\n📜 Summary:\n{s}\n\n🤔 Practice Questions:\n{q}"`. -/
def combined_text (transcript summary questions : List Char) : List Char :=
  ("📝 Transcription:\n").toList ++ transcript ++ ("\n\n📜 Summary:\n").toList ++ summary
    ++ ("\n\n🤔 Practice Questions:\n").toList ++ questions

/-- The real file write: `open(file_path, "w", encoding="utf-8").write(content)`
replaces the file's content and succeeds. -/
def write_overwrite {E : Type} : FS → List Char → Except E Unit × FS :=
  fun _ content => (.ok (), some content)

/-- Sequencing points of `process_audio`, in the order the code reaches them. -/
inductive Event where
  | transcribeDone
  | submitSummarize
  | submitQuestions
  | summaryAwaited
  | questionsAwaited
  | fileWritten
  | returned
deriving DecidableEq, Repr

/-- `process_audio`, instrumented with its event trace. Transcription is awaited
immediately after submission (a synchronous call); only then are the summary and
question tasks submitted; the summary result is awaited before the questions
result (so a summary error surfaces first); the report is written and only then
is the 4-tuple returned. On an error the trace stops at the point reached. -/
def process_audio_ev {E : Type} (whisper_model : String → Except E WhisperResult)
    (summarizer : List Char → Except E SummaryOutput)
    (question_generator : List Char → Except E (List GenOutput))
    (write : FS → List Char → Except E Unit × FS)
    (fs : FS) (audio_path : String) :
    (Except E (List Char × List Char × List Char × String) × FS) × List Event :=
  match transcribe_audio whisper_model audio_path with
  | .error e => ((.error e, fs), [])
  | .ok transcript =>
    match summarize_text summarizer transcript with
    | .error e => ((.error e, fs), [.transcribeDone, .submitSummarize, .submitQuestions])
    | .ok summary =>
      match generate_questions question_generator transcript with
      | .error e =>
        ((.error e, fs), [.transcribeDone, .submitSummarize, .submitQuestions, .summaryAwaited])
      | .ok questions =>
        match write fs (combined_text transcript summary questions) with
        | (.error e, fs2) =>
          ((.error e, fs2),
           [.transcribeDone, .submitSummarize, .submitQuestions, .summaryAwaited,
            .questionsAwaited])
        | (.ok _, fs2) =>
          ((.ok (transcript, summary, questions, file_path), fs2),
           [.transcribeDone, .submitSummarize, .submitQuestions, .summaryAwaited,
            .questionsAwaited, .fileWritten, .returned])

/-- `process_audio`: the trace-erased orchestrator. -/
def process_audio {E : Type} (whisper_model : String → Except E WhisperResult)
    (summarizer : List Char → Except E SummaryOutput)
    (question_generator : List Char → Except E (List GenOutput))
    (write : FS → List Char → Except E Unit × FS)
    (fs : FS) (audio_path : String) :
    Except E (List Char × List Char × List Char × String) × FS :=
  (process_audio_ev whisper_model summarizer question_generator write fs audio_path).1

/-- Number of chunks of a transcript at the fixed chunk size 1024. -/
def num_chunks (text : List Char) : Nat := (text_chunks text 1024).length

/-! ### Chunker lemmas -/

theorem pyRangeAux_fuel (step : Nat) (hstep : step ≠ 0) :
    ∀ fuel1 fuel2 start stop : Nat, stop - start ≤ fuel1 → stop - start ≤ fuel2 →
      pyRangeAux step fuel1 start stop = pyRangeAux step fuel2 start stop := by
  intro fuel1
  induction fuel1 with
  | zero =>
    intro fuel2 start stop h1 _
    have hle : stop ≤ start := by omega
    cases fuel2 with
    | zero => rfl
    | succ m => simp [pyRangeAux, hle]
  | succ n ih =>
    intro fuel2 start stop h1 h2
    by_cases hle : stop ≤ start
    · cases fuel2 with
      | zero => simp [pyRangeAux, hle]
      | succ m => simp [pyRangeAux, hle]
    · have hlt : start < stop := by omega
      cases fuel2 with
      | zero => omega
      | succ m =>
        simp only [pyRangeAux, if_neg hle]
        have := ih m (start + step) stop (by omega) (by omega)
        rw [this]

theorem pyRange_eq_nil {start stop step : Nat} (h : step = 0 ∨ stop ≤ start) :
    pyRange start stop step = [] := by
  rcases h with h | h
  · simp [pyRange, h]
  · rw [pyRange]
    have hz : stop - start = 0 := by omega
    rw [hz]
    simp [pyRangeAux]

theorem pyRange_eq_cons {start stop step : Nat} (h1 : step ≠ 0) (h2 : start < stop) :
    pyRange start stop step = start :: pyRange (start + step) stop step := by
  rw [pyRange, pyRange, if_neg h1, if_neg h1]
  have hpos : 0 < stop - start := by omega
  obtain ⟨m, hm⟩ : ∃ m, stop - start = m + 1 := ⟨stop - start - 1, by omega⟩
  rw [hm]
  simp only [pyRangeAux, if_neg (Nat.not_le.mpr h2)]
  congr 1
  exact pyRangeAux_fuel step h1 m (stop - (start + step)) (start + step) stop (by omega) (by omega)

theorem pyRange_shift (k : Nat) : ∀ start stop step : Nat,
    pyRange (start + k) (stop + k) step = (pyRange start stop step).map (fun i => i + k) := by
  intro start stop step
  by_cases hstep : step = 0
  · rw [pyRange_eq_nil (Or.inl hstep), pyRange_eq_nil (Or.inl hstep)]
    rfl
  · suffices H : ∀ n : Nat, ∀ a : Nat, stop - a = n →
        pyRange (a + k) (stop + k) step = (pyRange a stop step).map (fun i => i + k) from
      H (stop - start) start rfl
    intro n
    induction n using Nat.strong_induction_on with
    | _ n ih =>
      intro a hfuel
      by_cases hlt : a < stop
      · rw [pyRange_eq_cons hstep hlt, pyRange_eq_cons hstep (by omega)]
        have hrec := ih (stop - (a + step)) (by omega) (a + step) rfl
        simp only [List.map_cons]
        rw [← hrec]
        ring_nf
      · rw [pyRange_eq_nil (Or.inr (by omega)), pyRange_eq_nil (Or.inr (by omega))]
        rfl

theorem chunksAux_nil (k : Nat) : chunksAux [] k = [] := by
  rw [chunksAux]; simp

theorem chunksAux_eq_cons {s : List Char} {k : Nat} (hs : s ≠ []) (hk : k ≠ 0) :
    chunksAux s k = s.take k :: chunksAux (s.drop k) k := by
  rw [chunksAux]
  simp [hs, hk]

/-- The comprehension-based chunker agrees with its recursive characterization. -/
theorem text_chunks_eq_chunksAux (k : Nat) (hk : k ≠ 0) (s : List Char) :
    text_chunks s k = chunksAux s k := by
  suffices H : ∀ n : Nat, ∀ s : List Char, s.length = n → text_chunks s k = chunksAux s k from
    H s.length s rfl
  intro n
  induction n using Nat.strong_induction_on with
  | _ n ih =>
    intro s hfuel
    by_cases hs : s = []
    · subst hs
      simp [text_chunks, chunksAux, pyRange_eq_nil (Or.inr (Nat.le_refl 0))]
    · have hlen : 0 < s.length := List.length_pos.mpr hs
      rw [chunksAux_eq_cons hs hk]
      unfold text_chunks
      rw [pyRange_eq_cons hk hlen]
      simp only [List.map_cons, List.drop_zero]
      congr 1
      have hshift : pyRange (0 + k) ((s.length - k) + k) k
          = (pyRange 0 (s.length - k) k).map (fun i => i + k) := pyRange_shift k 0 (s.length - k) k
      have hdroplen : (s.drop k).length = s.length - k := List.length_drop k s
      have hrec := ih (s.drop k).length (by omega) (s.drop k) rfl
      unfold text_chunks at hrec
      rw [← hrec, hdroplen]
      by_cases hle : s.length ≤ k
      · have h1 : s.length - k = 0 := by omega
        rw [h1]
        rw [pyRange_eq_nil (Or.inr (show s.length ≤ 0 + k by omega))]
        rw [pyRange_eq_nil (Or.inr (Nat.le_refl 0))]
        rfl
      · have h2 : s.length - k + k = s.length := by omega
        rw [h2, Nat.zero_add] at hshift
        simp only [Nat.zero_add]
        rw [hshift, List.map_map]
        apply List.map_congr_left
        intro i _
        simp only [Function.comp]
        rw [List.drop_drop, Nat.add_comm]

theorem chunksAux_flatten (k : Nat) (hk : k ≠ 0) (s : List Char) :
    (chunksAux s k).flatten = s := by
  suffices H : ∀ n : Nat, ∀ s : List Char, s.length = n → (chunksAux s k).flatten = s from
    H s.length s rfl
  intro n
  induction n using Nat.strong_induction_on with
  | _ n ih =>
    intro s hfuel
    by_cases hs : s = []
    · subst hs; simp [chunksAux_nil]
    · rw [chunksAux_eq_cons hs hk]
      have hlen : 0 < s.length := List.length_pos.mpr hs
      have hdroplen : (s.drop k).length = s.length - k := List.length_drop k s
      have hrec := ih (s.drop k).length (by omega) (s.drop k) rfl
      simp only [List.flatten_cons, hrec]
      exact List.take_append_drop k s

theorem chunksAux_dropLast_length (k : Nat) (s : List Char) :
    ∀ c ∈ (chunksAux s k).dropLast, c.length = k := by
  suffices H : ∀ n : Nat, ∀ s : List Char, s.length = n →
      ∀ c ∈ (chunksAux s k).dropLast, c.length = k from H s.length s rfl
  intro n
  induction n using Nat.strong_induction_on with
  | _ n ih =>
    intro s hfuel
    by_cases hk : k = 0
    · subst hk
      rw [chunksAux]
      simp
    by_cases hs : s = []
    · subst hs; rw [chunksAux_nil]; simp
    · rw [chunksAux_eq_cons hs hk]
      have hlen : 0 < s.length := List.length_pos.mpr hs
      intro c hc
      rcases hrest : chunksAux (s.drop k) k with _ | ⟨r, rs⟩
      · rw [hrest] at hc
        simp at hc
      · rw [hrest] at hc
        rw [List.dropLast_cons_of_ne_nil (by simp)] at hc
        rcases List.mem_cons.mp hc with hceq | hcmem
        · subst hceq
          have hne : s.drop k ≠ [] := by
            intro hnil
            rw [hnil, chunksAux_nil] at hrest
            exact List.noConfusion hrest
          have : k < s.length := by
            have := List.length_drop k s
            have hpos : 0 < (s.drop k).length := List.length_pos.mpr hne
            omega
          simp [List.length_take]
          omega
        · have hdroplen : (s.drop k).length = s.length - k := List.length_drop k s
          have hrec := ih (s.drop k).length (by omega) (s.drop k) rfl
          rw [hrest] at hrec
          exact hrec c hcmem

theorem chunksAux_length (k : Nat) (hk : k ≠ 0) (s : List Char) :
    (chunksAux s k).length = (s.length + k - 1) / k := by
  suffices H : ∀ n : Nat, ∀ s : List Char, s.length = n →
      (chunksAux s k).length = (s.length + k - 1) / k from H s.length s rfl
  intro n
  induction n using Nat.strong_induction_on with
  | _ n ih =>
    intro s hfuel
    by_cases hs : s = []
    · subst hs
      rw [chunksAux_nil]
      simp only [List.length_nil, Nat.zero_add]
      exact (Nat.div_eq_of_lt (by omega)).symm
    · rw [chunksAux_eq_cons hs hk]
      have hlen : 0 < s.length := List.length_pos.mpr hs
      have hdroplen : (s.drop k).length = s.length - k := List.length_drop k s
      have hrec := ih (s.drop k).length (by omega) (s.drop k) rfl
      simp only [List.length_cons, hrec, List.length_drop]
      by_cases hle : s.length ≤ k
      · have h1 : s.length - k = 0 := by omega
        rw [h1]
        have hone : (s.length + k - 1) / k = 1 :=
          Nat.div_eq_of_lt_le (by omega) (by omega)
        have hz : (0 + k - 1) / k = 0 := Nat.div_eq_of_lt (by omega)
        omega
      · have h2 : s.length - k + k - 1 = s.length - 1 := by omega
        rw [h2]
        have h3 : s.length + k - 1 = (s.length - 1) + k := by omega
        rw [h3, Nat.add_div_right _ (Nat.pos_of_ne_zero hk)]

/-- Mapping an infallible (pure) model over a chunk list never errors and
returns the pointwise results. -/
theorem mapExcept_ok {E α β : Type} (f : α → β) (l : List α) :
    mapExcept (fun a => (Except.ok (f a) : Except E β)) l = .ok (l.map f) := by
  induction l with
  | nil => rfl
  | cons a t ih => simp [mapExcept, ih]

/-! ### C1: chunking -/

/-- Claim C1: at the fixed chunk size `k = 1024`, the chunk sequence
`s[0:k], s[k:2k], …` concatenates back to `s` exactly, every chunk except
possibly the last has length exactly 1024, the number of chunks equals
`ceil(len(s)/1024)` (written `(len(s) + 1024 - 1) / 1024`), and the empty
string yields the empty chunk sequence. -/
theorem text_chunks_spec (s : List Char) :
    (text_chunks s 1024).flatten = s
    ∧ (∀ c ∈ (text_chunks s 1024).dropLast, c.length = 1024)
    ∧ (text_chunks s 1024).length = (s.length + 1024 - 1) / 1024
    ∧ text_chunks ([] : List Char) 1024 = [] := by
  have hk : (1024 : Nat) ≠ 0 := by omega
  rw [text_chunks_eq_chunksAux 1024 hk]
  exact ⟨chunksAux_flatten 1024 hk s, chunksAux_dropLast_length 1024 s,
    chunksAux_length 1024 hk s,
    by rw [text_chunks_eq_chunksAux 1024 hk]; exact chunksAux_nil 1024⟩

set_option maxRecDepth 100000 in
/-- Witness for `text_chunks_spec` at a concrete 1025-character input: the
non-final chunk of the two produced chunks has length exactly 1024. -/
theorem text_chunks_spec_witness :
    List.replicate 1024 'a' ∈ (text_chunks (List.replicate 1025 'a') 1024).dropLast
    ∧ (List.replicate 1024 'a').length = 1024 :=
  ⟨by decide,
   (text_chunks_spec (List.replicate 1025 'a')).2.1 (List.replicate 1024 'a') (by decide)⟩

/-! ### C4: summarization adapter -/

/-- A transcript of positive length at most 1024 forms exactly one chunk: itself. -/
theorem text_chunks_single (s : List Char) (h1 : 0 < s.length) (h2 : s.length ≤ 1024) :
    text_chunks s 1024 = [s] := by
  rw [text_chunks_eq_chunksAux 1024 (by omega)]
  rw [chunksAux_eq_cons (List.length_pos.mp h1) (by omega)]
  rw [List.take_of_length_le h2, List.drop_eq_nil_of_le h2, chunksAux_nil]

/-- Counting the separator in a join whose parts avoid it counts the joints. -/
theorem count_join_with (a : Char) : ∀ l : List (List Char), (∀ x ∈ l, a ∉ x) →
    (join_with [a] l).count a = l.length - 1 := by
  intro l
  induction l with
  | nil => intro _; rfl
  | cons x t ih =>
    intro h
    cases t with
    | nil =>
      show (join_with [a] [x]).count a = 1 - 1
      simp [join_with, List.count_eq_zero.mpr (h x (by simp))]
    | cons y u =>
      have hx : a ∉ x := h x (by simp)
      have ht := ih (fun z hz => h z (by simp [hz]))
      show (x ++ [a] ++ join_with [a] (y :: u)).count a = (y :: u).length + 1 - 1
      simp only [List.count_append, List.count_eq_zero.mpr hx, ht]
      simp [List.count_cons]
      omega

/-- Claim C4: with a pure summarizer stub `m`, a transcript that fits in one
chunk (positive length at most 1024) is summarized to exactly the single
chunk's summary; in general the output is the per-chunk summaries joined in
chunk order, and when the per-chunk summaries contain no space character the
joined output contains exactly `num_chunks - 1` single-space separators. -/
theorem summarize_text_spec {E : Type} (m : List Char → SummaryOutput) (text : List Char) :
    (0 < text.length → text.length ≤ 1024 →
      summarize_text (fun c => (Except.ok (m c) : Except E SummaryOutput)) text
        = .ok (m text).summary_text)
    ∧ summarize_text (fun c => (Except.ok (m c) : Except E SummaryOutput)) text
        = .ok (join_with [' '] ((text_chunks text 1024).map (fun c => (m c).summary_text)))
    ∧ ((∀ c ∈ text_chunks text 1024, ' ' ∉ (m c).summary_text) →
      (join_with [' '] ((text_chunks text 1024).map (fun c => (m c).summary_text))).count ' '
        = num_chunks text - 1) := by
  refine ⟨?_, ?_, ?_⟩
  · intro h1 h2
    rw [summarize_text, mapExcept_ok, text_chunks_single text h1 h2]
    rfl
  · rw [summarize_text, mapExcept_ok]
    show Except.ok (join_with [' '] (List.map _ (List.map m (text_chunks text 1024)))) = _
    rw [List.map_map]
    rfl
  · intro hnos
    rw [count_join_with ' ' _ ?_, List.length_map]
    · rfl
    · intro x hx
      rcases List.mem_map.mp hx with ⟨c, hc, hceq⟩
      rw [← hceq]
      exact hnos c hc

/-- Witness for `summarize_text_spec`: a one-chunk transcript is summarized to
exactly its own (stubbed) summary, and the space-free two-chunk case yields one
separator. -/
theorem summarize_text_spec_witness :
    summarize_text (fun _ => (Except.ok ⟨"SUM".toList⟩ : Except Unit SummaryOutput)) "hello".toList
      = .ok "SUM".toList
    ∧ (join_with [' ']
        ((text_chunks "hello".toList 1024).map
          (fun _ => (SummaryOutput.mk "SUM".toList).summary_text))).count ' '
        = num_chunks "hello".toList - 1 :=
  ⟨(summarize_text_spec (fun _ => ⟨"SUM".toList⟩) "hello".toList).1 (by decide) (by decide),
   (summarize_text_spec (E := Unit) (fun _ => ⟨"SUM".toList⟩) "hello".toList).2.2
     (by decide)⟩

/-! ### C3: question-generation adapter -/

/-- Claim C3: with a pure question-generator stub `g`, the accumulated
question list is the per-chunk candidate groups flattened in chunk submission
order, and if the model returns exactly 3 candidates per call the total count
is `num_chunks * 3`. (Determinism across two runs with identical inputs is
immediate: the embedded computation is a pure function of its inputs.) -/
theorem generate_questions_count {E : Type} (g : List Char → List GenOutput) (text : List Char) :
    questions_of (fun p => (Except.ok (g p) : Except E (List GenOutput))) text
      = .ok (((text_chunks text 1024).map
          (fun c => (g (build_prompt c)).map (fun q => q.generated_text))).flatten)
    ∧ ((∀ p, (g p).length = 3) →
      (((text_chunks text 1024).map
          (fun c => (g (build_prompt c)).map (fun q => q.generated_text))).flatten).length
        = num_chunks text * 3) := by
  constructor
  · rw [questions_of, mapExcept_ok]
    show Except.ok ((List.map _ (List.map _ (text_chunks text 1024))).flatten) = _
    rw [List.map_map]
    rfl
  · intro h3
    rw [List.length_flatten, List.map_map]
    have hsum : ∀ l : List (List Char),
        (l.map (fun c => ((g (build_prompt c)).map (fun q => q.generated_text)).length)).sum
          = l.length * 3 := by
      intro l
      induction l with
      | nil => rfl
      | cons c t ih =>
        simp only [List.length_map, h3] at ih
        simp only [List.map_cons, List.sum_cons, List.length_map, h3, List.length_cons, ih]
        ring
    have := hsum (text_chunks text 1024)
    simp only [Function.comp] at *
    rw [num_chunks]
    convert this using 2

/-- Witness for `generate_questions_count`: a constant 3-candidate stub on a
one-chunk transcript yields `num_chunks * 3 = 3` questions. -/
theorem generate_questions_count_witness :
    (((text_chunks "hi".toList 1024).map
        (fun c => ((fun _ => [GenOutput.mk "Q1".toList, GenOutput.mk "Q2".toList,
            GenOutput.mk "Q3".toList]) (build_prompt c)).map
          (fun q => q.generated_text))).flatten).length
      = num_chunks "hi".toList * 3 :=
  (generate_questions_count (E := Unit)
    (fun _ => [⟨"Q1".toList⟩, ⟨"Q2".toList⟩, ⟨"Q3".toList⟩]) "hi".toList).2 (fun _ => rfl)

/-! ### C10: empty transcript -/

/-- Claim C10: on the empty transcript there are zero chunks, so the
summarizer and question generator are never invoked: both adapters return the
empty string for any models, and `process_audio` with a transcription stub
returning the empty string returns `("", "", "", "lecture_summary.txt")` and
writes a file holding exactly the three fixed headers with empty bodies. -/
theorem empty_transcript_behavior {E : Type}
    (summarizer : List Char → Except E SummaryOutput)
    (question_generator : List Char → Except E (List GenOutput))
    (fs : FS) (audio_path : String) :
    summarize_text summarizer [] = .ok []
    ∧ generate_questions question_generator [] = .ok []
    ∧ process_audio (fun _ => (Except.ok ⟨[]⟩ : Except E WhisperResult))
        summarizer question_generator write_overwrite fs audio_path
      = (.ok ([], [], [], file_path),
         some (("📝 Transcription:\n").toList ++ ("\n\n📜 Summary:\n").toList
           ++ ("\n\n🤔 Practice Questions:\n").toList)) :=
  ⟨rfl, rfl, rfl⟩

/-! ### C2: end-to-end with stub models -/

/-- Claim C2: with a stub transcription model mapping the audio path to
`"hello world"`, a stub summarizer returning `"SUM"` per chunk and a stub
question generator returning `["Q1","Q2","Q3"]` per chunk, `process_audio`
returns exactly `("hello world", "SUM", "Q1\nQ2\nQ3", "lecture_summary.txt")`
and the file afterwards holds the three values under their fixed headers. -/
theorem process_audio_stub_end_to_end :
    process_audio (fun _ => (Except.ok ⟨"hello world".toList⟩ : Except Unit WhisperResult))
      (fun _ => .ok ⟨"SUM".toList⟩)
      (fun _ => .ok [⟨"Q1".toList⟩, ⟨"Q2".toList⟩, ⟨"Q3".toList⟩])
      write_overwrite none "lecture.mp3"
      = (.ok ("hello world".toList, "SUM".toList, ("Q1\nQ2\nQ3").toList, file_path),
         some (("📝 Transcription:\n").toList ++ "hello world".toList
           ++ ("\n\n📜 Summary:\n").toList ++ "SUM".toList
           ++ ("\n\n🤔 Practice Questions:\n").toList ++ ("Q1\nQ2\nQ3").toList)) := by
  rfl

/-! ### C5: report artifact format -/

/-- Claim C5: every successful invocation of `process_audio` (with the real
overwriting write) returns `"lecture_summary.txt"` as the fourth tuple element
and leaves the file holding exactly three labeled sections — transcript,
summary, questions, in that order — each under its fixed emoji-decorated
header, with a blank line (the `"\n\n"` in the format string) separating
consecutive sections, replacing any prior content. -/
theorem process_audio_report_format {E : Type}
    (whisper_model : String → Except E WhisperResult)
    (summarizer : List Char → Except E SummaryOutput)
    (question_generator : List Char → Except E (List GenOutput))
    (fs : FS) (audio_path : String)
    (t summary questions : List Char) (p : String) (fs2 : FS)
    (h : process_audio whisper_model summarizer question_generator write_overwrite fs audio_path
      = (.ok (t, summary, questions, p), fs2)) :
    p = file_path
    ∧ fs2 = some (("📝 Transcription:\n").toList ++ t
        ++ ("\n\n📜 Summary:\n").toList ++ summary
        ++ ("\n\n🤔 Practice Questions:\n").toList ++ questions) := by
  rw [process_audio, process_audio_ev] at h
  rcases htr : transcribe_audio whisper_model audio_path with e | tr <;> simp only [htr] at h
  · simp at h
  rcases hsm : summarize_text summarizer tr with e | sm <;> simp only [hsm] at h
  · simp at h
  rcases hq : generate_questions question_generator tr with e | qs <;> simp only [hq] at h
  · simp at h
  simp only [write_overwrite, Prod.mk.injEq, Except.ok.injEq] at h
  obtain ⟨⟨ht, hsu, hqu, hp⟩, hfs⟩ := h
  subst ht hsu hqu
  exact ⟨hp.symm, by rw [← hfs]; rfl⟩

/-- Witness for `process_audio_report_format`: with concrete stubs the
returned path is the fixed one and the file holds the three sections. -/
theorem process_audio_report_format_witness :
    "lecture_summary.txt" = file_path
    ∧ (some (("📝 Transcription:\n").toList ++ "T".toList
        ++ ("\n\n📜 Summary:\n").toList ++ "S".toList
        ++ ("\n\n🤔 Practice Questions:\n").toList ++ "Q".toList) : FS)
      = some (("📝 Transcription:\n").toList ++ "T".toList
        ++ ("\n\n📜 Summary:\n").toList ++ "S".toList
        ++ ("\n\n🤔 Practice Questions:\n").toList ++ "Q".toList) :=
  ⟨(process_audio_report_format (E := Unit) (fun _ => .ok ⟨"T".toList⟩)
      (fun _ => .ok ⟨"S".toList⟩) (fun _ => .ok [⟨"Q".toList⟩]) none "a.mp3"
      "T".toList "S".toList "Q".toList "lecture_summary.txt"
      (some (("📝 Transcription:\n").toList ++ "T".toList
        ++ ("\n\n📜 Summary:\n").toList ++ "S".toList
        ++ ("\n\n🤔 Practice Questions:\n").toList ++ "Q".toList)) rfl).1,
   rfl⟩

/-! ### C6: idempotence / determinism -/

/-- Claim C6: with deterministic (pure-function) model stubs and the real
overwriting write, running `process_audio` a second time on the same audio
path — starting from the file state the first run left behind — returns the
same 4-tuple result and leaves byte-identical file contents. -/
theorem process_audio_idempotent {E : Type}
    (whisper_model : String → Except E WhisperResult)
    (summarizer : List Char → Except E SummaryOutput)
    (question_generator : List Char → Except E (List GenOutput))
    (fs : FS) (audio_path : String) :
    process_audio whisper_model summarizer question_generator write_overwrite fs audio_path
      = process_audio whisper_model summarizer question_generator write_overwrite
          (process_audio whisper_model summarizer question_generator write_overwrite
            fs audio_path).2 audio_path := by
  rcases htr : transcribe_audio whisper_model audio_path with e | tr
  · simp [process_audio, process_audio_ev, htr]
  rcases hsm : summarize_text summarizer tr with e | sm
  · simp [process_audio, process_audio_ev, htr, hsm]
  rcases hq : generate_questions question_generator tr with e | qs
  · simp [process_audio, process_audio_ev, htr, hsm, hq]
  · simp [process_audio, process_audio_ev, htr, hsm, hq, write_overwrite]

/-! ### C7: error propagation -/

/-- Claim C7: any exception raised by an underlying model call or by the file
write propagates unchanged: a transcription-model error is returned as-is by
`transcribe_audio` and by `process_audio`; a summarization or
question-generation error is returned as-is by `process_audio`; and in all
three model-error cases the file is left untouched. An error raised by the
write itself also propagates unchanged (the file state is then whatever the
failing write left behind). Nothing is caught, retried or transformed. -/
theorem error_propagation {E : Type}
    (whisper_model : String → Except E WhisperResult)
    (summarizer : List Char → Except E SummaryOutput)
    (question_generator : List Char → Except E (List GenOutput))
    (write : FS → List Char → Except E Unit × FS)
    (fs : FS) (audio_path : String) :
    (∀ e, whisper_model audio_path = .error e →
      transcribe_audio whisper_model audio_path = .error e
      ∧ process_audio whisper_model summarizer question_generator write fs audio_path
          = (.error e, fs))
    ∧ (∀ e tr, transcribe_audio whisper_model audio_path = .ok tr →
      summarize_text summarizer tr = .error e →
      process_audio whisper_model summarizer question_generator write fs audio_path
        = (.error e, fs))
    ∧ (∀ e tr sm, transcribe_audio whisper_model audio_path = .ok tr →
      summarize_text summarizer tr = .ok sm →
      generate_questions question_generator tr = .error e →
      process_audio whisper_model summarizer question_generator write fs audio_path
        = (.error e, fs))
    ∧ (∀ e tr sm qs fs2, transcribe_audio whisper_model audio_path = .ok tr →
      summarize_text summarizer tr = .ok sm →
      generate_questions question_generator tr = .ok qs →
      write fs (combined_text tr sm qs) = (.error e, fs2) →
      process_audio whisper_model summarizer question_generator write fs audio_path
        = (.error e, fs2)) := by
  refine ⟨?_, ?_, ?_, ?_⟩
  · intro e he
    have htr : transcribe_audio whisper_model audio_path = .error e := by
      rw [transcribe_audio, he]
    exact ⟨htr, by simp [process_audio, process_audio_ev, htr]⟩
  · intro e tr htr hsm
    simp [process_audio, process_audio_ev, htr, hsm]
  · intro e tr sm htr hsm hq
    simp [process_audio, process_audio_ev, htr, hsm, hq]
  · intro e tr sm qs fs2 htr hsm hq hw
    simp [process_audio, process_audio_ev, htr, hsm, hq, hw]

/-- Witness for `error_propagation`: a transcription stub raising error code 7
makes `process_audio` return exactly that error with the file untouched. -/
theorem error_propagation_witness :
    process_audio (fun _ => (Except.error 7 : Except Nat WhisperResult))
      (fun c => .ok ⟨c⟩) (fun _ => .ok []) write_overwrite none "a.mp3"
      = (.error 7, none) :=
  ((error_propagation (fun _ => (Except.error 7 : Except Nat WhisperResult))
    (fun c => .ok ⟨c⟩) (fun _ => .ok []) write_overwrite none "a.mp3").1 7 rfl).2

/-! ### C8: orchestrator sequencing -/

/-- Claim C8: on every successful invocation the instrumented event trace of
`process_audio` shows that transcription completes before either the
summarization or the question task is submitted (a task can only begin after
its submission), that the summary result is awaited before the questions
result, and that the tuple is returned only after the file write completed. -/
theorem process_audio_sequencing {E : Type}
    (whisper_model : String → Except E WhisperResult)
    (summarizer : List Char → Except E SummaryOutput)
    (question_generator : List Char → Except E (List GenOutput))
    (write : FS → List Char → Except E Unit × FS)
    (fs : FS) (audio_path : String)
    (out : List Char × List Char × List Char × String) (fs2 : FS)
    (h : (process_audio_ev whisper_model summarizer question_generator write fs audio_path).1
      = (.ok out, fs2)) :
    (process_audio_ev whisper_model summarizer question_generator write fs audio_path).2
      = [.transcribeDone, .submitSummarize, .submitQuestions, .summaryAwaited,
         .questionsAwaited, .fileWritten, .returned]
    ∧ ([Event.transcribeDone, .submitSummarize, .submitQuestions, .summaryAwaited,
         .questionsAwaited, .fileWritten, .returned].indexOf Event.transcribeDone
        < [Event.transcribeDone, .submitSummarize, .submitQuestions, .summaryAwaited,
         .questionsAwaited, .fileWritten, .returned].indexOf Event.submitSummarize)
    ∧ ([Event.transcribeDone, .submitSummarize, .submitQuestions, .summaryAwaited,
         .questionsAwaited, .fileWritten, .returned].indexOf Event.transcribeDone
        < [Event.transcribeDone, .submitSummarize, .submitQuestions, .summaryAwaited,
         .questionsAwaited, .fileWritten, .returned].indexOf Event.submitQuestions)
    ∧ ([Event.transcribeDone, .submitSummarize, .submitQuestions, .summaryAwaited,
         .questionsAwaited, .fileWritten, .returned].indexOf Event.summaryAwaited
        < [Event.transcribeDone, .submitSummarize, .submitQuestions, .summaryAwaited,
         .questionsAwaited, .fileWritten, .returned].indexOf Event.questionsAwaited)
    ∧ ([Event.transcribeDone, .submitSummarize, .submitQuestions, .summaryAwaited,
         .questionsAwaited, .fileWritten, .returned].indexOf Event.fileWritten
        < [Event.transcribeDone, .submitSummarize, .submitQuestions, .summaryAwaited,
         .questionsAwaited, .fileWritten, .returned].indexOf Event.returned) := by
  rw [process_audio_ev] at h ⊢
  rcases htr : transcribe_audio whisper_model audio_path with e | tr <;> simp only [htr] at h ⊢
  · simp at h
  rcases hsm : summarize_text summarizer tr with e | sm <;> simp only [hsm] at h ⊢
  · simp at h
  rcases hq : generate_questions question_generator tr with e | qs <;> simp only [hq] at h ⊢
  · simp at h
  rcases hw : write fs (combined_text tr sm qs) with ⟨r, fs3⟩
  rcases r with e | u <;> simp only [hw] at h ⊢
  · simp at h
  · exact ⟨by trivial, by decide, by decide, by decide, by decide⟩

/-- Witness for `process_audio_sequencing`: with concrete stubs the successful
run produces exactly the seven sequencing events in order. -/
theorem process_audio_sequencing_witness :
    (process_audio_ev (fun _ => (Except.ok ⟨"T".toList⟩ : Except Unit WhisperResult))
      (fun _ => .ok ⟨"S".toList⟩) (fun _ => .ok [⟨"Q".toList⟩])
      write_overwrite none "a.mp3").2
      = [.transcribeDone, .submitSummarize, .submitQuestions, .summaryAwaited,
         .questionsAwaited, .fileWritten, .returned] :=
  (process_audio_sequencing (fun _ => (Except.ok ⟨"T".toList⟩ : Except Unit WhisperResult))
    (fun _ => .ok ⟨"S".toList⟩) (fun _ => .ok [⟨"Q".toList⟩]) write_overwrite none "a.mp3"
    ("T".toList, "S".toList, "Q".toList, file_path)
    (some (combined_text "T".toList "S".toList "Q".toList)) rfl).1

/-! ### C9: question ordering (completion order vs submission order) -/

/-- Formalization of the claim wording of C9, for comparison with the code:
flatten the per-chunk candidate groups in the order the concurrent tasks
completed — given as the list `completion_order` of chunk indices — then
newline-join. -/
def questions_in_completion_order (question_generator : List Char → List GenOutput)
    (completion_order : List Nat) (text : List Char) : List Char :=
  join_with ['\n']
    ((completion_order.map (fun i =>
      (question_generator (build_prompt ((text_chunks text 1024).getD i []))).map
        (fun q => q.generated_text))).flatten)

/-- Indexing a list by `0, …, length-1` in order is the list itself. -/
theorem map_range_getD {β : Type} (l : List (List Char)) (f : List Char → β) :
    (List.range l.length).map (fun i => f (l.getD i [])) = l.map f := by
  apply List.ext_getElem
  · simp
  · intro i h1 h2
    have h3 : i < l.length := by simpa using h2
    simp only [List.getElem_map, List.getElem_range]
    congr 1
    simp only [List.getD_eq_getElem?_getD, List.getElem?_eq_getElem h3, Option.getD_some]

set_option maxRecDepth 400000 in
/-- Counterexample to claim C9 as stated: `[1, 0]` is a possible completion
order of the two chunk tasks of a 1025-character transcript (a permutation of
the submitted task indices), yet the code's newline-joined question block does
not follow it — the code awaits the futures in submission order, so the block
differs from the completion-order flattening. The stub returns the last
character of the prompt, which distinguishes the two chunks. -/
theorem questions_completion_order_counterexample :
    ([1, 0] : List Nat).Perm
      (List.range (num_chunks (List.replicate 1024 'a' ++ ['b'])))
    ∧ generate_questions
        (fun p => (Except.ok [⟨[p.getLastD ' ']⟩] : Except Unit (List GenOutput)))
        (List.replicate 1024 'a' ++ ['b'])
      ≠ .ok (questions_in_completion_order (fun p => [⟨[p.getLastD ' ']⟩]) [1, 0]
          (List.replicate 1024 'a' ++ ['b'])) := by
  constructor
  · decide
  · decide

set_option maxRecDepth 400000 in
/-- Claim C9 amended: the order of question strings in the newline-joined
block follows the submission order of the per-chunk tasks (the code iterates
the future list in submission order and blocks on each result), regardless of
the real-time completion order of the concurrent tasks: the output equals the
completion-order flattening exactly for the identity (submission) order. -/
theorem questions_follow_submission_order (g : List Char → List GenOutput)
    (text : List Char) :
    generate_questions (fun p => (Except.ok (g p) : Except Unit (List GenOutput))) text
      = .ok (questions_in_completion_order g (List.range (num_chunks text)) text) := by
  have hmr : (List.range (text_chunks text 1024).length).map
      (fun i => (g (build_prompt ((text_chunks text 1024).getD i []))).map
        (fun q => q.generated_text))
      = (text_chunks text 1024).map
        (fun c => (g (build_prompt c)).map (fun q => q.generated_text)) :=
    map_range_getD (text_chunks text 1024)
      (fun c => (g (build_prompt c)).map (fun q => q.generated_text))
  rw [generate_questions, questions_of, mapExcept_ok, questions_in_completion_order,
    num_chunks, hmr]
  show Except.ok (join_with ['\n'] ((List.map _ (List.map _ (text_chunks text 1024))).flatten)) = _
  rw [List.map_map]
  rfl
